import Mathlib

/-!
Shallow embedding of the iter-chain lazy-sequence library
(src/src/generators.ts).  Each generator function is modelled as a Lean
function on `List`: a JavaScript generator run to exhaustion produces the
list of its yielded values, so a generator that pulls from an upstream
iterable becomes a function from the upstream list to the output list.
JavaScript numbers used as counts are modelled as `Int` (the claims only
exercise integral counts); the zero-based index counters of map/filter are
`Nat`.  `Set<string>` is modelled as a `List String` with membership
lookup, and a JavaScript object used as a record is modelled as an
insertion-ordered association list `List (String × V)` together with the
ECMAScript own-property enumeration order (array-index keys in ascending
numeric order first, then the remaining string keys in insertion order).
-/

namespace IterChain

universe u v w

variable {T : Type u} {R : Type v} {V : Type w}

/-- `KeyValue<K, V>` from src/src/common.ts as used by `objectGenerator`:
after property access the key is a string. -/
structure KeyValue (V : Type w) where
  key : String
  value : V
  deriving DecidableEq, Repr

/-- Reads a non-empty run of decimal digits as a natural number; `none` as
soon as a non-digit character occurs. -/
def parseDecimalAux : List Char → Nat → Option Nat
  | [], acc => some acc
  | c :: cs, acc =>
    if c.isDigit then parseDecimalAux cs (acc * 10 + (c.toNat - 48))
    else none

/-- The decimal value of a string of digits; `none` when the string is empty
or contains a non-digit. -/
def parseDecimalNat (cs : List Char) : Option Nat :=
  match cs with
  | [] => none
  | _ :: _ => parseDecimalAux cs 0

/-- A canonical array-index property key in the sense of the ECMAScript
specification: a string that is the decimal representation of an integer
`n` with `0 ≤ n < 2^32 - 1` (so no leading zeros).  Returns that integer
when the key is one. -/
def jsArrayIndexKey (s : String) : Option Nat :=
  match parseDecimalNat s.data with
  | some n => if toString n = s ∧ n < 4294967295 then some n else none
  | none => none

/-- Insertion into a list sorted by the numeric key (ascending). -/
def insertByIndex (p : Nat × String × V) :
    List (Nat × String × V) → List (Nat × String × V)
  | [] => [p]
  | q :: qs => if p.1 < q.1 then p :: q :: qs else q :: insertByIndex p qs

/-- The host's own-property enumeration order over a freshly built object,
modelled per the ECMAScript specification: array-index keys in ascending
numeric order first, then the remaining string keys in insertion order.
The association list carries the own properties in insertion order. -/
def jsEnumKeys (record : List (String × V)) : List (String × V) :=
  let indexed := record.filterMap fun p =>
    (jsArrayIndexKey p.1).map fun n => (n, p)
  (indexed.foldr insertByIndex []).map (fun q => q.2) ++
    record.filter fun p => (jsArrayIndexKey p.1).isNone

/-- `objectGenerator(obj)`: `for (const key in obj) if (obj.hasOwnProperty(key))
yield {key, value: obj[key]}`.  The record model holds exactly the own
enumerable properties, visited in the host's enumeration order. -/
def objectGenerator (record : List (String × V)) : List (KeyValue V) :=
  (jsEnumKeys record).map fun p => ⟨p.1, p.2⟩

/-- `rangeGenerator(start, count)`: `for (let i = 0; i < count; i++) yield
start + i`.  The loop runs `count.toNat` times (zero times when the count
is not positive). -/
def rangeGenerator (start count : Int) : List Int :=
  (List.range count.toNat).map fun i => start + (i : Int)

/-- `repeatGenerator(value, count)`: `for (let i = 0; i < count; i++) yield
value`. -/
def repeatGenerator (value : T) (count : Int) : List T :=
  List.replicate count.toNat value

/-- The loop body of `mapGenerator`, with the counter `i` as an explicit
argument; the source increments `i` after each yield. -/
def mapGo (selector : T → Nat → R) : List T → Nat → List R
  | [], _ => []
  | item :: rest, i => selector item i :: mapGo selector rest (i + 1)

/-- `mapGenerator(source, selector)`: `let i = 0; for (const item of source)
{ yield selector(item, i); i++; }`. -/
def mapGenerator (source : List T) (selector : T → Nat → R) : List R :=
  mapGo selector source 0

/-- The loop body of `filterGenerator`, with the counter `i` as an explicit
argument.  In the source (src/src/generators.ts lines 31–38) `i` is
declared and passed to `condition` but never incremented anywhere in the
loop, so it is threaded through unchanged here. -/
def filterGo (condition : T → Nat → Bool) : List T → Nat → List T
  | [], _ => []
  | item :: rest, i =>
    if condition item i then item :: filterGo condition rest i
    else filterGo condition rest i

/-- `filterGenerator(source, condition)`: `let i = 0; for (const item of
source) { if (condition(item, i)) yield item; }` — note the source never
increments `i`. -/
def filterGenerator (source : List T) (condition : T → Nat → Bool) : List T :=
  filterGo condition source 0

/-- `appendGenerator(source, element)`: yields `element`, then every item of
`source`. -/
def appendGenerator (source : List T) (element : T) : List T :=
  element :: source

/-- `prependGenerator(source, element)`: yields every item of `source`, then
`element`. -/
def prependGenerator (source : List T) (element : T) : List T :=
  source ++ [element]

/-- `concatGenerator(source, other)`: yields all of `source`, then all of
`other`.  (In the source the element types may differ; the claims only use
it homogeneously, so both sides share the element type here.) -/
def concatGenerator (source other : List T) : List T :=
  source ++ other

/-- `skipGenerator(source, count)`: advances the iterator while it is not
done and `count > 0`, decrementing `count` per pull, then yields the
remaining elements. -/
def skipGenerator : List T → Int → List T
  | [], _ => []
  | item :: rest, count =>
    if count > 0 then skipGenerator rest (count - 1) else item :: rest

/-- `takeGenerator(source, count)`: while the iterator is not done and
`count > 0`, yields the pulled element and decrements `count`. -/
def takeGenerator : List T → Int → List T
  | [], _ => []
  | item :: rest, count =>
    if count > 0 then item :: takeGenerator rest (count - 1) else []

/-- `reverseGenerator(source)`: materializes `buffer = Array.from(source)`
and then yields `buffer[buffer.length - i - 1]` for `i = 0 .. length-1`. -/
def reverseGenerator (source : List T) : List T :=
  List.ofFn fun i : Fin source.length =>
    source.get ⟨source.length - 1 - i.1, by omega⟩

/-- The loop of `distinctGenerator`, with the growing seen-set (a
`Set<string>` in the source) as an explicit argument. -/
def distinctGo (stringifier : T → String) :
    List T → List String → List T
  | [], _ => []
  | item :: rest, seen =>
    let key := stringifier item
    if key ∈ seen then distinctGo stringifier rest seen
    else item :: distinctGo stringifier rest (key :: seen)

/-- `distinctGenerator(source, stringifier)`: starts from an empty seen-set;
yields an item only when its stringified key is not yet in the set, adding
the key.  (The optional-argument defaulting `stringifier || selfSelector`
is resolved at the call boundary: the stringifier is an explicit
argument.) -/
def distinctGenerator (source : List T) (stringifier : T → String) : List T :=
  distinctGo stringifier source []

/-- `exceptGenerator(first, second, stringifier)`: builds
`new Set(mapGenerator(second, stringifier))` (the extra index argument that
`mapGenerator` supplies is ignored by the unary stringifier), then yields
the items of `first` whose key is absent from the set. -/
def exceptGenerator (first second : List T) (stringifier : T → String) :
    List T :=
  let set := mapGenerator second fun item _ => stringifier item
  first.filter fun item => !(set.contains (stringifier item))

/-- `intersectGenerator(first, second, stringifier)`: builds the same set
from `second`, then yields the items of `first` whose key is present. -/
def intersectGenerator (first second : List T) (stringifier : T → String) :
    List T :=
  let set := mapGenerator second fun item _ => stringifier item
  first.filter fun item => set.contains (stringifier item)

/-- `unionGenerator(first, second, stringifier)`: returns
`distinctGenerator(concatGenerator(first, second), stringifier)`. -/
def unionGenerator (first second : List T) (stringifier : T → String) :
    List T :=
  distinctGenerator (concatGenerator first second) stringifier

/-- One step of `groupByGenerator`'s accumulation loop:
`if (record[key] == null) record[key] = []; record[key].push(value)`.
A fresh key becomes a new last own property of the record. -/
def recordAdd (record : List (String × List V)) (key : String) (v : V) :
    List (String × List V) :=
  if record.any fun p => p.1 == key then
    record.map fun p => if p.1 == key then (p.1, p.2 ++ [v]) else p
  else record ++ [(key, [v])]

/-- `groupByGenerator(source, keySelector, valueSelector)`: fully consumes
`source` into a record of buckets, then returns
`objectGenerator(record)`.  The key selector is taken here after the
host's property-key coercion, i.e. as producing the string property key. -/
def groupByGenerator (source : List T) (keySelector : T → String)
    (valueSelector : T → V) : List (KeyValue (List V)) :=
  objectGenerator
    (source.foldl
      (fun record item =>
        recordAdd record (keySelector item) (valueSelector item)) [])

/-- The host's coercion of an integral number used as a property key:
`ToString` of the integer. -/
def jsNumberKey (n : Int) : String := toString n

/-- `groupByGenerator` called with a number-returning key selector: the
number is coerced to a string property key by the host when used in
`record[key]`. -/
def groupByGeneratorNum (source : List T) (keySelector : T → Int)
    (valueSelector : T → V) : List (KeyValue (List V)) :=
  groupByGenerator source (fun item => jsNumberKey (keySelector item))
    valueSelector

/-! ### Helper lemmas -/

/-- `mapGenerator`'s loop enumerates the source with indices starting at the
initial counter value. -/
lemma mapGo_enumFrom (f : T → Nat → R) (l : List T) (i : Nat) :
    mapGo f l i = (List.enumFrom i l).map fun p => f p.2 p.1 := by
  induction l generalizing i with
  | nil => rfl
  | cons x xs ih => simp [mapGo, List.enumFrom_cons, ih]

/-- A selector that ignores the index makes `mapGenerator`'s loop an
ordinary map. -/
lemma mapGo_const (s : T → String) (l : List T) (i : Nat) :
    mapGo (fun x _ => s x) l i = l.map s := by
  induction l generalizing i with
  | nil => rfl
  | cons x xs ih => simp [mapGo, ih]

/-- `filterGenerator`'s loop with a fixed counter value is an ordinary
filter at that index. -/
lemma filterGo_eq_filter (c : T → Nat → Bool) (l : List T) (i : Nat) :
    filterGo c l i = l.filter fun x => c x i := by
  induction l with
  | nil => rfl
  | cons x xs ih => by_cases hc : c x i <;> simp [filterGo, hc, ih]

/-- With a non-positive count the skip loop never advances: the whole
source is yielded. -/
lemma skipGenerator_nonpos (l : List T) (n : Int) (h : n ≤ 0) :
    skipGenerator l n = l := by
  cases l with
  | nil => rfl
  | cons x xs =>
    simp only [skipGenerator]
    rw [if_neg (by omega)]

/-- The skip output is an order-preserving subsequence of the source. -/
lemma skipGenerator_sublist (l : List T) (n : Int) :
    (skipGenerator l n).Sublist l := by
  induction l generalizing n with
  | nil => simp [skipGenerator]
  | cons x xs ih =>
    simp only [skipGenerator]
    split
    · exact (ih (n - 1)).trans (List.sublist_cons_self x xs)
    · exact List.Sublist.refl _

/-- With a non-positive count the take loop yields nothing. -/
lemma takeGenerator_nonpos (l : List T) (n : Int) (h : n ≤ 0) :
    takeGenerator l n = [] := by
  cases l with
  | nil => rfl
  | cons x xs =>
    simp only [takeGenerator]
    rw [if_neg (by omega)]

/-- The take output is an order-preserving subsequence of the source. -/
lemma takeGenerator_sublist (l : List T) (n : Int) :
    (takeGenerator l n).Sublist l := by
  induction l generalizing n with
  | nil => simp [takeGenerator]
  | cons x xs ih =>
    simp only [takeGenerator]
    split
    · exact List.Sublist.cons₂ x (ih (n - 1))
    · exact List.nil_sublist _

/-- The distinct loop only yields elements whose key is outside the current
seen-set. -/
lemma distinctGo_key_not_mem (s : T → String) (l : List T)
    (seen : List String) (x : T) (hx : x ∈ distinctGo s l seen) :
    s x ∉ seen := by
  induction l generalizing seen with
  | nil => simp [distinctGo] at hx
  | cons y ys ih =>
    simp only [distinctGo] at hx
    split at hx
    · exact ih _ hx
    · rename_i hkey
      rcases List.mem_cons.mp hx with h | h
      · subst h; exact hkey
      · intro hmem
        exact ih _ h (List.mem_cons_of_mem _ hmem)

/-- The distinct loop's output is an order-preserving subsequence of the
source. -/
lemma distinctGo_sublist (s : T → String) (l : List T) (seen : List String) :
    (distinctGo s l seen).Sublist l := by
  induction l generalizing seen with
  | nil => simp [distinctGo]
  | cons y ys ih =>
    simp only [distinctGo]
    split
    · exact (ih _).trans (List.sublist_cons_self y ys)
    · exact List.Sublist.cons₂ y (ih _)

/-- No key is yielded twice by the distinct loop. -/
lemma distinctGo_map_nodup (s : T → String) (l : List T)
    (seen : List String) : ((distinctGo s l seen).map s).Nodup := by
  induction l generalizing seen with
  | nil => simp [distinctGo]
  | cons y ys ih =>
    simp only [distinctGo]
    split
    · exact ih _
    · simp only [List.map_cons, List.nodup_cons]
      refine ⟨fun hmem => ?_, ih _⟩
      rcases List.mem_map.mp hmem with ⟨z, hz, hsz⟩
      exact distinctGo_key_not_mem s ys _ z hz (hsz ▸ List.mem_cons_self _ _)

/-- A key outside the seen-set occurs among the yielded keys exactly when
it occurs among the source's keys. -/
lemma distinctGo_mem_map (s : T → String) (l : List T) (seen : List String)
    (k : String) (hk : k ∉ seen) :
    k ∈ (distinctGo s l seen).map s ↔ k ∈ l.map s := by
  induction l generalizing seen with
  | nil => simp [distinctGo]
  | cons y ys ih =>
    simp only [distinctGo, List.map_cons]
    split
    · rename_i hseen
      rw [ih _ hk, List.mem_cons]
      constructor
      · exact Or.inr
      · rintro (h | h)
        · exact absurd (h ▸ hseen) hk
        · exact h
    · by_cases hky : k = s y
      · subst hky
        simp [List.mem_cons]
      · have hk' : k ∉ s y :: seen := by
          simp only [List.mem_cons, not_or]
          exact ⟨hky, hk⟩
        simp only [List.map_cons, List.mem_cons]
        rw [ih _ hk']

/-- The buffered backwards read of `reverseGenerator` is list reversal. -/
lemma reverseGenerator_eq_reverse (l : List T) :
    reverseGenerator l = l.reverse := by
  apply List.ext_get
  · simp [reverseGenerator]
  · intro n h1 h2
    simp only [reverseGenerator, List.get_ofFn, List.get_eq_getElem,
      List.getElem_reverse, List.getElem_ofFn]

/-! ### Claim theorems -/

/-- C1 (code observation): `filterGenerator` never increments its index
counter, so the predicate is invoked with index 0 on every upstream pull —
`filterGenerator` coincides with filtering by the predicate fixed at index
0 — and consequently `filter([10,20,30], (item, index) => index === 1)`
yields nothing while `filter([10,20,30], (item, index) => index === 0)`
yields all three elements.  This contradicts the claim that the index
equals the zero-based upstream pull count. -/
theorem filterGenerator_index_always_zero :
    (∀ (T : Type u) (S : List T) (c : T → Nat → Bool),
      filterGenerator S c = S.filter fun x => c x 0)
    ∧ filterGenerator ([10, 20, 30] : List Int) (fun _ i => i == 1) = []
    ∧ filterGenerator ([10, 20, 30] : List Int) (fun _ i => i == 0)
        = [10, 20, 30] := by
  refine ⟨fun T S c => filterGo_eq_filter c S 0, by rfl, by rfl⟩

/-- C2: `appendGenerator` yields the extra element first and then the whole
source in order, while `prependGenerator` yields the whole source in order
and then the extra element last; in particular `append([1,2], 0)` is
`[0,1,2]` and `prepend([1,2], 3)` is `[1,2,3]`. -/
theorem append_prepend_contracts (S : List T) (e : T) :
    appendGenerator S e = e :: S ∧ prependGenerator S e = S ++ [e]
    ∧ appendGenerator ([1, 2] : List Int) 0 = [0, 1, 2]
    ∧ prependGenerator ([1, 2] : List Int) 3 = [1, 2, 3] :=
  ⟨rfl, rfl, rfl, rfl⟩

/-- C3 (counterexample): `skip` with count 0 does not produce an empty
sequence on the non-empty source `[1]` — it yields the whole source. -/
theorem skip_count_zero_not_empty :
    skipGenerator ([1] : List Int) 0 = [1]
    ∧ skipGenerator ([1] : List Int) 0 ≠ [] := by
  refine ⟨rfl, by simp [skipGenerator]⟩

/-- C3 (amended): with a count `≤ 0`, `fromRange`, `fromRepeat` and `take`
produce an empty sequence, while `skip` yields the entire source
unchanged. -/
theorem count_nonpos_behavior (start count : Int) (v : T) (S : List T)
    (h : count ≤ 0) :
    rangeGenerator start count = [] ∧ repeatGenerator v count = []
    ∧ takeGenerator S count = [] ∧ skipGenerator S count = S := by
  refine ⟨?_, ?_, takeGenerator_nonpos S count h, skipGenerator_nonpos S count h⟩
  · simp [rangeGenerator, Int.toNat_of_nonpos h]
  · simp [repeatGenerator, Int.toNat_of_nonpos h]

/-- Witness for C3's amended theorem at `start = 5`, `count = -2`,
`v = 7`, `S = [1,2,3]`. -/
theorem count_nonpos_behavior_witness :
    (-2 : Int) ≤ 0
    ∧ (rangeGenerator 5 (-2) = [] ∧ repeatGenerator (7 : Int) (-2) = []
      ∧ takeGenerator ([1, 2, 3] : List Int) (-2) = []
      ∧ skipGenerator ([1, 2, 3] : List Int) (-2) = [1, 2, 3]) :=
  ⟨by decide, count_nonpos_behavior 5 (-2) 7 [1, 2, 3] (by decide)⟩

/-- C4: `unionGenerator` yields exactly the same elements in the same order
as `distinctGenerator` applied to the concatenation of its inputs: the
first occurrence of each stringified identity wins, in concatenation
order. -/
theorem union_eq_distinct_concat (A B : List T) (s : T → String) :
    unionGenerator A B s = distinctGenerator (concatGenerator A B) s := rfl

/-- C5: no stringified identity occurs both in `except(A, B)` and in
`intersect(A, B)`; the two outputs together are a permutation of `A`
(so they reconstruct `A` as a multiset), and each output is an
order-preserving subsequence of `A`, preserving `A`'s order and the
multiplicity of every surviving element. -/
theorem except_intersect_partition (A B : List T) (s : T → String) :
    (∀ x ∈ exceptGenerator A B s, ∀ y ∈ intersectGenerator A B s,
      s x ≠ s y)
    ∧ (exceptGenerator A B s ++ intersectGenerator A B s).Perm A
    ∧ (exceptGenerator A B s).Sublist A
    ∧ (intersectGenerator A B s).Sublist A := by
  refine ⟨?_, ?_, List.filter_sublist A, List.filter_sublist A⟩
  · intro x hx y hy hxy
    simp only [exceptGenerator, intersectGenerator, List.mem_filter] at hx hy
    rcases hx with ⟨-, hx2⟩
    rcases hy with ⟨-, hy2⟩
    rw [hxy, hy2] at hx2
    simp at hx2
  · simp only [exceptGenerator, intersectGenerator]
    have hperm := List.filter_append_perm
      (fun item =>
        !((mapGenerator B fun item _ => s item).contains (s item))) A
    simpa using hperm

/-- C6: `distinct` yields an element only at the first occurrence of its
stringified identity: the yielded keys are pairwise distinct, the output
is an order-preserving subsequence of the source (hence no longer than
it), and a key occurs among the yielded keys exactly when it occurs among
the source's keys. -/
theorem distinct_no_duplicate_keys (S : List T) (s : T → String) :
    ((distinctGenerator S s).map s).Nodup
    ∧ (distinctGenerator S s).Sublist S
    ∧ (distinctGenerator S s).length ≤ S.length
    ∧ (∀ k, k ∈ (distinctGenerator S s).map s ↔ k ∈ S.map s) := by
  refine ⟨distinctGo_map_nodup s S [], distinctGo_sublist s S [],
    (distinctGo_sublist s S []).length_le, fun k => ?_⟩
  exact distinctGo_mem_map s S [] k (List.not_mem_nil k)

/-- C7: `map` applies the selector elementwise along the source's
enumeration (preserving order and length), and each of `filter`, `skip`,
`take`, `distinct`, `except` and `intersect` yields an order-preserving
subsequence of its (first) input. -/
theorem operators_preserve_order (S A B : List T) (f : T → Nat → R)
    (c : T → Nat → Bool) (n m : Int) (s : T → String) :
    mapGenerator S f = S.enum.map (fun p => f p.2 p.1)
    ∧ (filterGenerator S c).Sublist S
    ∧ (skipGenerator S n).Sublist S
    ∧ (takeGenerator S m).Sublist S
    ∧ (distinctGenerator S s).Sublist S
    ∧ (exceptGenerator A B s).Sublist A
    ∧ (intersectGenerator A B s).Sublist A := by
  refine ⟨mapGo_enumFrom f S 0, ?_, skipGenerator_sublist S n,
    takeGenerator_sublist S m, distinctGo_sublist s S [],
    List.filter_sublist A, List.filter_sublist A⟩
  · show (filterGo c S 0).Sublist S
    rw [filterGo_eq_filter c S 0]
    exact List.filter_sublist S

/-- C8: reversing twice restores every finite sequence: the buffered
backwards read applied to its own output yields the original elements in
the original order. -/
theorem reverse_reverse_id (S : List T) :
    reverseGenerator (reverseGenerator S) = S := by
  rw [reverseGenerator_eq_reverse, reverseGenerator_eq_reverse,
    List.reverse_reverse]

/-- C9: `groupBy([1,2,3,4], x => x % 2)` yields exactly the group with key
`"0"` and values `[2,4]` and then the group with key `"1"` and values
`[1,3]`: numeric keys are coerced to string property keys, each group's
value list preserves first-seen order, and the groups come out in the
bucket record's own-property enumeration order (ascending for array-index
keys), not in first-key-encountered order (which would put `"1"` first). -/
theorem groupBy_mod_two_example :
    groupByGeneratorNum [1, 2, 3, 4] (fun x => x % 2) (fun x => x)
      = [⟨"0", [2, 4]⟩, ⟨"1", [1, 3]⟩] := by rfl

/-- C10: `skip` with a count `≤ 0` (including negative counts) yields every
element of the source unchanged and in order, and its output is non-empty
whenever the source is. -/
theorem skip_nonpos_yields_source (S : List T) (n : Int) (h : n ≤ 0) :
    skipGenerator S n = S ∧ (S ≠ [] → skipGenerator S n ≠ []) := by
  have hs := skipGenerator_nonpos S n h
  exact ⟨hs, fun hne => by rw [hs]; exact hne⟩

/-- Witness for C10 at `S = [1,2]`, `n = -1`. -/
theorem skip_nonpos_yields_source_witness :
    (-1 : Int) ≤ 0
    ∧ (skipGenerator ([1, 2] : List Int) (-1) = [1, 2]
      ∧ (([1, 2] : List Int) ≠ []
        → skipGenerator ([1, 2] : List Int) (-1) ≠ [])) :=
  ⟨by decide, skip_nonpos_yields_source [1, 2] (-1) (by decide)⟩

end IterChain
